import Mathlib

/-!
Shallow embedding of the `cgex` asset-extraction pipeline
(`src/main.rs`, `src/img.rs`, `src/game_extractor.rs`) together with
theorems settling the specification claims about variant detection,
extraction orchestration, deduplication, path demangling and the
transparency/upscale compositor.

String operations of the source (`to_lowercase`, `split`,
`starts_with`, `Path::extension`, `Path::set_extension`) are modelled
by structurally recursive functions on the character list of a
`String`, so that every definition evaluates by kernel reduction.
-/

namespace Cgex

/-! ## String helpers -/

/-- Model of Rust `str::to_lowercase` (the pipeline only applies it to
ASCII file names, where per-character lowering is exact). -/
def strLower (s : String) : String :=
  ⟨s.data.map Char.toLower⟩

/-- Splitting worker: emits the chunk accumulated in `acc` (reversed)
whenever `sep` is a prefix of the remaining input, as Rust
`str::split` does with leftmost non-overlapping matches. The fuel is
always instantiated with the input length, which one character per
step keeps sufficient. -/
def splitOnAux (sep : List Char) : Nat → List Char → List Char → List (List Char)
  | _, [], acc => [acc.reverse]
  | 0, l, acc => [acc.reverse ++ l]
  | fuel + 1, c :: rest, acc =>
    if sep.isPrefixOf (c :: rest) then
      acc.reverse :: splitOnAux sep fuel (List.drop (sep.length - 1) rest) []
    else
      splitOnAux sep fuel rest (c :: acc)

/-- Model of Rust `str::split` with a non-empty literal separator:
non-overlapping leftmost matches, empty chunks kept. -/
def splitStr (sep s : String) : List String :=
  (splitOnAux sep.data s.data.length s.data []).map (fun l => ⟨l⟩)

/-- Model of joining with a separator (Rust `[&str]::join`). -/
def joinStr (sep : String) : List String → String
  | [] => ""
  | [s] => s
  | s :: rest => ⟨s.data ++ sep.data ++ (joinStr sep rest).data⟩

/-- Model of Rust `str::starts_with(char)`. -/
def startsWithChar (s : String) (c : Char) : Bool :=
  match s.data with
  | [] => false
  | d :: _ => d == c

/-- Model of Rust `&s[1..]` for the ASCII prefixes the pipeline strips. -/
def strDropOne (s : String) : String :=
  ⟨s.data.drop 1⟩

/-! ## Path-name helpers

Models of `std::path::Path::extension` and `Path::set_extension`
restricted to plain file names (the only way the pipeline uses them):
the extension is the part after the last `.`, except that a name with
no `.`, or whose only `.` is the leading character, has no extension. -/

/-- Extension of a plain file name, as `Path::extension` computes it. -/
def pathExtension (name : String) : Option String :=
  let parts := splitStr "." name
  if parts.length ≤ 1 then none
  else if parts.length == 2 && parts.head! == "" then none
  else some parts.getLast!

/-- Model of `Path::set_extension` on a plain file name: replace the
extension when there is one, append it otherwise. -/
def setExtension (name ext : String) : String :=
  match pathExtension name with
  | none => ⟨name.data ++ ".".data ++ ext.data⟩
  | some _ => ⟨(joinStr "." (splitStr "." name).dropLast).data ++ ".".data ++ ext.data⟩

/-! ## Variant detection (`detect_game`, `find_dir_files` in `src/main.rs`,
expected-file sets in `src/game_extractor.rs`) -/

/-- Registered game variants (`JonssonMjolner`, `JonssonDjupet`,
`MulleBil` in `src/game_extractor.rs`). -/
inductive Game where
  | jonssonMjolner
  | jonssonDjupet
  | mulleBil
deriving DecidableEq, Repr

/-- Expected archive files of Jönssonligan: Jakten på Mjölner
(`src/main.rs` lines 46-75). -/
def jonssonMjolnerFiles : List String :=
  [ "anslagstavla.dir", "block.dir", "dorislapp.dir", "glidflygare.dir",
    "heden.dir", "kassaskap.dir", "monalisa.dir", "paris.dir", "setup.dir",
    "souvenir.dir", "tavla.dir", "tidningsbutik.dir", "wtavla.dir",
    "berlin.dir", "container.dir", "drottningtavla.dir", "gotland.dir",
    "huvudmeny.dir", "london.dir", "nrspel.dir", "rom.dir", "sheild.dir",
    "stockholm.dir", "telefonbok.dir", "wsafe.dir" ].map strLower

/-- Expected archive files of Jönssonligan: Går på Djupet
(`src/main.rs` line 77). -/
def jonssonDjupetFiles : List String :=
  ["avi.dir", "game.dir", "mainmenu.dir", "qt.dir"].map strLower

/-- Expected archive files of Mulle Meck bygger bilar
(`MulleBil::get_expected_files`, `src/game_extractor.rs` lines 270-301). -/
def mulleBilFiles : List String :=
  [ "02.dxr", "03.dxr", "04.dxr", "05.dxr", "06.dxr", "08.dxr", "10.dxr",
    "12.dxr", "13.dxr", "18.dxr", "82.dxr", "83.dxr", "84.dxr", "85.dxr",
    "86.dxr", "87.dxr", "88.dxr", "89.dxr", "90.dxr", "91.dxr", "92.dxr",
    "93.dxr", "94.dxr", "lbstart.dxr", "unload.dxr" ].map strLower

/-- Size of `expected ∩ found`: the expected lists have no duplicates, so
counting the expected names present in `found` models
`HashSet::intersection(..).count()`. -/
def matchCount (expected found : List String) : Nat :=
  (expected.filter (fun f => found.contains f)).length

/-- Model of `detect_game` (`src/main.rs` lines 43-107) on the list of
archive file names found under the input root. The non-fatal shortfall
warnings are prints only and are not modelled. -/
def detectGame (dirFileNames : List String) : Except String Game :=
  let foundFiles := dirFileNames.map strLower
  let gameAMatch := matchCount jonssonMjolnerFiles foundFiles
  let gameBMatch := matchCount jonssonDjupetFiles foundFiles
  if gameAMatch > gameBMatch then
    Except.ok Game.jonssonMjolner
  else if gameBMatch > 0 then
    Except.ok Game.jonssonDjupet
  else
    Except.error "Unable to detect game type. No matching .dir files found."

/-- Model of `eq_ignore_ascii_case` on extensions. -/
def eqIgnoreAsciiCase (a b : String) : Bool :=
  strLower a == strLower b

/-- Model of `find_dir_files` (`src/main.rs` lines 109-126): the
recursive directory walk is collapsed to the multiset of file names it
visits; a name is kept exactly when its extension equals `dir` up to
ASCII case. -/
def findDirFiles (fileNames : List String) : List String :=
  fileNames.filter (fun name =>
    match pathExtension name with
    | some ext => eqIgnoreAsciiCase ext "dir"
    | none => false)

/-! ## Path demangling and moving (`move_file_to_output`, `src/main.rs`
lines 239-276) -/

/-- Stripping of the single leading `-` artifact
(`src/main.rs` lines 255-257). -/
def stripLeadingDash (s : String) : String :=
  if startsWithChar s '-' then strDropOne s else s

/-- Path components that `move_file_to_output` pushes under the output
root for an encoded flat file name (`src/main.rs` lines 245-264): split
on `"--"`, all parts but the last become directories; the last part is
split on `"__"`, whose head becomes one more directory and whose tail,
rejoined with `"__"` and stripped of one leading `-`, becomes the leaf. -/
def demangle (fileName : String) : List String :=
  let parts := splitStr "--" fileName
  if parts.length > 1 then
    let fileParts := splitStr "__" parts.getLast!
    if fileParts.length > 1 then
      parts.dropLast ++ [fileParts.head!, stripLeadingDash (joinStr "__" fileParts.tail)]
    else
      parts.dropLast ++ [parts.getLast!]
  else
    [fileName]

/-- Demangled components with the optional extension override applied
to the leaf (`dst_path.set_extension(ext)`, `src/main.rs` lines 266-268). -/
def demangledComponents (fileName : String) (extOverride : Option String) : List String :=
  let comps := demangle fileName
  match extOverride with
  | none => comps
  | some e => comps.dropLast ++ [setExtension comps.getLast! e]

/-- Minimal file-system state for the move step: the set of file paths
and directory paths present, each path a list of components. -/
structure FS where
  files : List (List String)
  dirs : List (List String)
deriving DecidableEq, Repr

/-- Model of `fs::create_dir_all`: the directory and every ancestor of
it are created (`src/main.rs` line 270). -/
def mkdirAll (fs : FS) (d : List String) : FS :=
  { fs with dirs := (List.range d.length).map (fun i => d.take (i + 1)) ++ fs.dirs }

/-- Model of `move_file_to_output` (`src/main.rs` lines 239-276) acting
on the file-system state. The file name is the last component of the
source path; `renameOk` is the oracle for whether `fs::rename` succeeds
(it fails e.g. across filesystems); on rename failure the code falls
back to `fs::copy` alone, which leaves the source file in place. A
failure of the fallback copy itself is fatal and not modelled. -/
def moveFileToOutput (renameOk : Bool) (src : List String)
    (outputDir : List String) (extOverride : Option String) (fs : FS) : FS :=
  let dst := outputDir ++ demangledComponents src.getLast! extOverride
  let fs1 := mkdirAll fs dst.dropLast
  if renameOk then
    { fs1 with files := dst :: fs1.files.filter (fun p => p ≠ src) }
  else
    { fs1 with files := dst :: fs1.files }

/-! ## Parallel image-batch collection (`src/main.rs` lines 367-390) -/

/-- Model of `collect::<Result<Vec<_>>>()` over the per-image outcomes:
the first error short-circuits and discards every success
(`src/main.rs` line 390). Under rayon the surfaced error is some
failing item's error; the model picks the first in list order. -/
def collectResults {ε α : Type} : List (Except ε α) → Except ε (List α)
  | [] => Except.ok []
  | Except.ok a :: rest => (collectResults rest).map (fun l => a :: l)
  | Except.error e :: _ => Except.error e

/-! ## Extraction orchestration (`extract_files`, `run_extractor`,
`src/main.rs` lines 128-182) -/

/-- Output of the external extractor subprocess as `Command::output`
reports it: an exit code (plus streams, irrelevant here). A spawn or
I/O failure is the `Except.error` case of the runner instead. -/
structure ProcOutput where
  exitCode : Int
deriving DecidableEq, Repr

/-- Per-archive loop of `extract_files` (`src/main.rs` lines 169-179):
each runner error is wrapped with the archive file name and aborts;
a returned `ProcOutput` is discarded without inspecting its exit code. -/
def runExtractorAll (runner : String → Except String ProcOutput) :
    List String → Except String Unit
  | [] => Except.ok ()
  | f :: rest =>
    match runner f with
    | Except.error e =>
      Except.error ("Failed to extract assets from: " ++ f ++ ": " ++ e)
    | Except.ok _ => runExtractorAll runner rest

/-- Model of `extract_files` (`src/main.rs` lines 161-182) on the
sorted list of archive file names, parameterized by the subprocess
runner (`run_extractor`). -/
def extractFiles (dirFiles : List String)
    (runner : String → Except String ProcOutput) : Except String Unit :=
  if dirFiles.isEmpty then
    Except.error "No .dir files found in the input directory. Please check your input path."
  else
    runExtractorAll runner dirFiles

/-! ## Pipeline driver control flow (`main`, `src/main.rs` lines 278-415)

Each fallible stage of `main` after the temporary directory is created
(line 314) is reduced to its outcome; `runPipeline` reproduces the `?`
control flow between them and reports whether the final
`fs::remove_dir_all(&temp_dir)` (line 411) was reached. -/

/-- Outcomes of the fallible stages of `main` that run after the
temporary directory has been created, in program order. -/
structure StageResults where
  copyInput : Except String Unit
  prepare : Except String Unit
  copyExtractorTool : Except String Unit
  copyXtras : Except String Unit
  extract : Except String Unit
  dedup : Except String Unit
  processImages : Except String Unit
  postSetup : Except String Unit
  createOutputDir : Except String Unit
  moveProcessed : Except String Unit
  moveWavs : Except String Unit
  removeTemp : Except String Unit

/-- Control flow of `main` from `src/main.rs` line 316 to 414: every
stage error propagates immediately via `?` except deduplication, whose
failure only prints a warning (lines 335-338). The boolean reports
whether the cleanup `fs::remove_dir_all(&temp_dir)` was invoked. -/
def runPipeline (s : StageResults) : Except String Unit × Bool :=
  match s.copyInput with
  | Except.error e => (Except.error e, false)
  | Except.ok _ =>
  match s.prepare with
  | Except.error e => (Except.error e, false)
  | Except.ok _ =>
  match s.copyExtractorTool with
  | Except.error e => (Except.error e, false)
  | Except.ok _ =>
  match s.copyXtras with
  | Except.error e => (Except.error e, false)
  | Except.ok _ =>
  match s.extract with
  | Except.error e => (Except.error e, false)
  | Except.ok _ =>
  -- remove_duplicates failure is a warning only; control flow continues
  match s.dedup with
  | _ =>
  match s.processImages with
  | Except.error e => (Except.error e, false)
  | Except.ok _ =>
  match s.postSetup with
  | Except.error e => (Except.error e, false)
  | Except.ok _ =>
  match s.createOutputDir with
  | Except.error e => (Except.error e, false)
  | Except.ok _ =>
  match s.moveProcessed with
  | Except.error e => (Except.error e, false)
  | Except.ok _ =>
  match s.moveWavs with
  | Except.error e => (Except.error e, false)
  | Except.ok _ =>
  (s.removeTemp, true)

/-! ## Deduplication (`remove_duplicates`, `hash_file`,
`src/main.rs` lines 184-221) -/

/-- Lexicographic comparison of character lists, the order in which
sibling file paths compare. -/
def lexLE : List Char → List Char → Bool
  | [], _ => true
  | _ :: _, [] => false
  | a :: as, b :: bs => if a < b then true else if b < a then false else lexLE as bs

/-- Path comparison used by `files.sort()` (line 210): the paths share
the directory, so they compare by file name. -/
def pathLe (a b : String) : Bool :=
  lexLE a.data b.data

/-- Sorting relation of `files.sort()` on `(path, digest)` records. -/
abbrev pathOrder (a b : String × String) : Prop :=
  pathLe a.1 b.1 = true

/-- Loop body of `remove_duplicates` (lines 212-219) over
`(path, digest)` records: a file whose digest is in `seen` is deleted,
otherwise it survives and its digest is added to `seen`. `hash_file`
is abstracted into the digest component of each record. -/
def dedupGo : List (String × String) → List String → List (String × String)
  | [], _ => []
  | f :: rest, seen =>
    if f.2 ∈ seen then
      dedupGo rest seen
    else
      f :: dedupGo rest (f.2 :: seen)

/-- Model of `remove_duplicates` (lines 201-221): the surviving records
after sorting by path and deleting every record whose digest was
already seen. -/
def removeDuplicates (files : List (String × String)) : List (String × String) :=
  dedupGo (files.insertionSort pathOrder) []

/-! ## Transparency/upscale compositor (`src/img.rs`) -/

/-- RGB triple, channel values as naturals below 256. -/
structure Rgb where
  r : Nat
  g : Nat
  b : Nat
deriving DecidableEq, Repr

/-- RGBA pixel, channel values as naturals below 256. -/
structure Rgba where
  r : Nat
  g : Nat
  b : Nat
  a : Nat
deriving DecidableEq, Repr

/-- Raster image: dimensions plus a total pixel function (reads outside
the bounds never occur in the modelled code paths). -/
structure Image where
  width : Nat
  height : Nat
  pix : Nat → Nat → Rgba

/-- Output formats chosen by `process_image` (`image::ImageFormat`
variants used by the code). -/
inductive ImgFormat where
  | bmp
  | webp
  | png
deriving DecidableEq, Repr

/-- Model of `background_and_foreground` (`src/img.rs` lines 68-88):
pixels matching the transparent color componentwise (alpha ignored)
become the opaque key color, all others opaque black. -/
def background_and_foreground (img : Image) (transparentColor : Rgb) : Image :=
  { width := img.width
    height := img.height
    pix := fun x y =>
      let p := img.pix x y
      if p.r = transparentColor.r ∧ p.g = transparentColor.g ∧ p.b = transparentColor.b then
        ⟨transparentColor.r, transparentColor.g, transparentColor.b, 255⟩
      else
        ⟨0, 0, 0, 255⟩ }

/-- Model of `background_to_transparent` (`src/img.rs` lines 90-104):
pixels matching the transparent color become fully transparent, all
others pass through unchanged. -/
def background_to_transparent (img : Image) (transparentColor : Rgb) : Image :=
  { width := img.width
    height := img.height
    pix := fun x y =>
      let p := img.pix x y
      if p.r = transparentColor.r ∧ p.g = transparentColor.g ∧ p.b = transparentColor.b then
        ⟨0, 0, 0, 0⟩
      else
        p }

/-- Model of `combine_background` (`src/img.rs` lines 106-114): a
buffer of the background's dimensions, zero-initialized as
`ImageBuffer::new` does, overwritten at every coordinate of `img2`
with `img2`'s color and alpha `255 − background.red`. -/
def combine_background (img2 backgroundImg : Image) : Image :=
  { width := backgroundImg.width
    height := backgroundImg.height
    pix := fun x y =>
      if x < img2.width ∧ y < img2.height then
        let p := img2.pix x y
        ⟨p.r, p.g, p.b, 255 - (backgroundImg.pix x y).r⟩
      else
        ⟨0, 0, 0, 0⟩ }

/-- Model of `ai_upscale` (`src/img.rs` lines 116-165): the external
super-resolution network is the parameter `forward`, mapping the input
image and factor to an RGB color per output coordinate; the code
reassembles its output at `factor`-scaled dimensions with alpha forced
to 255. -/
def ai_upscale (forward : Image → Nat → Nat → Nat → Rgb)
    (inputImage : Image) (factor : Nat) : Image :=
  { width := inputImage.width * factor
    height := inputImage.height * factor
    pix := fun x y =>
      let c := forward inputImage factor x y
      ⟨c.r, c.g, c.b, 255⟩ }

/-- Model of `process_image` (`src/img.rs` lines 18-66), parameterized
by the external `image::imageops::resize` (triangle filter) and the
super-resolution network. It returns the chosen format and the image
that is saved to the output path. -/
def process_image (resizeF : Image → Nat → Nat → Image)
    (forward : Image → Nat → Nat → Nat → Rgb)
    (img : Image) (compress upscale : Bool)
    (transparentColor : Rgb) : ImgFormat × Image :=
  if !upscale && !compress then
    (ImgFormat.bmp, img)
  else if !upscale && compress then
    (ImgFormat.webp, img)
  else
    let factor := 3
    let b_w_img := background_and_foreground img transparentColor
    let b_w_img_upscaled := resizeF b_w_img (b_w_img.width * factor) (b_w_img.height * factor)
    let transparent_img := background_to_transparent img transparentColor
    let ai_img := ai_upscale forward transparent_img factor
    let upscaled_img := combine_background ai_img b_w_img_upscaled
    ((if compress then ImgFormat.webp else ImgFormat.png), upscaled_img)

/-- Uniform source image entirely of the key color (BMP sources decode
with opaque alpha). -/
def uniformImage (w h : Nat) (c : Rgb) : Image :=
  { width := w
    height := h
    pix := fun _ _ => ⟨c.r, c.g, c.b, 255⟩ }

/-! ## Order lemmas for the path comparison -/

theorem lexLE_refl : ∀ as : List Char, lexLE as as = true
  | [] => rfl
  | a :: as => by
    simpa [lexLE, lt_irrefl] using lexLE_refl as

theorem lexLE_total : ∀ as bs : List Char, lexLE as bs = true ∨ lexLE bs as = true
  | [], _ => Or.inl rfl
  | _ :: _, [] => Or.inr rfl
  | a :: as, b :: bs => by
    rcases lt_trichotomy a b with h | h | h
    · left; simp [lexLE, h]
    · subst h
      rcases lexLE_total as bs with h2 | h2
      · left; simpa [lexLE, lt_irrefl] using h2
      · right; simpa [lexLE, lt_irrefl] using h2
    · right; simp [lexLE, h]

theorem lexLE_cons_self (a : Char) (as bs : List Char) :
    lexLE (a :: as) (a :: bs) = lexLE as bs := by
  simp [lexLE]

theorem lexLE_cons_of_lt {a b : Char} (h : a < b) (as bs : List Char) :
    lexLE (a :: as) (b :: bs) = true := by
  simp [lexLE, h]

theorem lexLE_cons_of_gt {a b : Char} (h : b < a) (as bs : List Char) :
    lexLE (a :: as) (b :: bs) = false := by
  simp [lexLE, h, lt_asymm h]

theorem lexLE_trans :
    ∀ as bs cs : List Char, lexLE as bs = true → lexLE bs cs = true → lexLE as cs = true
  | [], _, _, _, _ => rfl
  | _ :: _, [], _, h1, _ => by simp [lexLE] at h1
  | _ :: _, _ :: _, [], _, h2 => by simp [lexLE] at h2
  | a :: as, b :: bs, c :: cs, h1, h2 => by
    rcases lt_trichotomy a b with hab | hab | hab
    · rcases lt_trichotomy b c with hbc | hbc | hbc
      · exact lexLE_cons_of_lt (lt_trans hab hbc) as cs
      · subst hbc; exact lexLE_cons_of_lt hab as cs
      · rw [lexLE_cons_of_gt hbc bs cs] at h2; exact absurd h2 (by simp)
    · subst hab
      rcases lt_trichotomy a c with hac | hac | hac
      · exact lexLE_cons_of_lt hac as cs
      · subst hac
        rw [lexLE_cons_self] at h1 h2 ⊢
        exact lexLE_trans as bs cs h1 h2
      · rw [lexLE_cons_of_gt hac bs cs] at h2; exact absurd h2 (by simp)
    · rw [lexLE_cons_of_gt hab as bs] at h1; exact absurd h1 (by simp)

instance : IsTotal (String × String) pathOrder :=
  ⟨fun a b => lexLE_total a.1.data b.1.data⟩

instance : IsTrans (String × String) pathOrder :=
  ⟨fun a b c h1 h2 => lexLE_trans a.1.data b.1.data c.1.data h1 h2⟩

/-! ## Claim theorems -/

/-- Claim C7: path demangling decodes `"a--b__c__d.ext"` to `a/b/c__d.ext`
and `"plain.ext"` to `plain.ext`, and the leading `-` produced by the
`"__"` split is stripped from the leaf exactly once: once and not zero
times on `"a--b__-c.ext"`, and exactly one dash even when more of the
leaf follows, both in context (`"a--b__-__x.ext"`) and on the stripping
function itself. -/
theorem demangle_spec :
    demangle "a--b__c__d.ext" = ["a", "b", "c__d.ext"] ∧
    demangle "plain.ext" = ["plain.ext"] ∧
    demangle "a--b__-c.ext" = ["a", "b", "c.ext"] ∧
    demangle "a--b__-__x.ext" = ["a", "b", "__x.ext"] ∧
    stripLeadingDash "--d.ext" = "-d.ext" := by
  decide

/-- Claim C2 (counterexample): on a found-file set where both variants
score exactly 1, `detect_game` selects Jönssonligan: Går på Djupet, the
second-registered variant, not the first-registered one the claim
names. -/
theorem detect_game_tie_selects_djupet :
    matchCount jonssonMjolnerFiles (["heden.dir", "avi.dir"].map strLower) =
      matchCount jonssonDjupetFiles (["heden.dir", "avi.dir"].map strLower) ∧
    0 < matchCount jonssonDjupetFiles (["heden.dir", "avi.dir"].map strLower) ∧
    detectGame ["heden.dir", "avi.dir"] = Except.ok Game.jonssonDjupet ∧
    detectGame ["heden.dir", "avi.dir"] ≠ Except.ok Game.jonssonMjolner := by
  refine ⟨by decide, by decide, rfl, fun hc => ?_⟩
  rw [show detectGame ["heden.dir", "avi.dir"] = Except.ok Game.jonssonDjupet from rfl] at hc
  exact absurd (Except.ok.inj hc) (by decide)

/-- Claim C2 (amended): `detect_game` selects the variant with the
strictly greatest case-folded intersection score; a tie at a positive
score selects the second-registered variant (Jönssonligan: Går på
Djupet), and two zero scores are a fatal "no matching game type"
error. -/
theorem detect_game_score_policy (found : List String) :
    (matchCount jonssonMjolnerFiles (found.map strLower) >
        matchCount jonssonDjupetFiles (found.map strLower) →
      detectGame found = Except.ok Game.jonssonMjolner) ∧
    (matchCount jonssonDjupetFiles (found.map strLower) >
        matchCount jonssonMjolnerFiles (found.map strLower) →
      detectGame found = Except.ok Game.jonssonDjupet) ∧
    (matchCount jonssonMjolnerFiles (found.map strLower) =
        matchCount jonssonDjupetFiles (found.map strLower) →
      0 < matchCount jonssonDjupetFiles (found.map strLower) →
      detectGame found = Except.ok Game.jonssonDjupet) ∧
    (matchCount jonssonMjolnerFiles (found.map strLower) = 0 →
      matchCount jonssonDjupetFiles (found.map strLower) = 0 →
      detectGame found = Except.error "Unable to detect game type. No matching .dir files found.") := by
  simp only [detectGame]
  refine ⟨fun h => ?_, fun h => ?_, fun h h0 => ?_, fun ha hb => ?_⟩
  · rw [if_pos h]
  · rw [if_neg (by omega), if_pos (by omega)]
  · rw [if_neg (by omega), if_pos (by omega)]
  · rw [if_neg (by omega), if_neg (by omega)]

/-- Witness for the amended claim C2 at concrete found-file sets: a
strict Mjölner win, a tie resolved to Djupet, and a zero-zero
failure. -/
theorem detect_game_score_policy_witness :
    detectGame ["heden.dir"] = Except.ok Game.jonssonMjolner ∧
    detectGame ["heden.dir", "avi.dir"] = Except.ok Game.jonssonDjupet ∧
    detectGame ["unrelated.dir"] =
      Except.error "Unable to detect game type. No matching .dir files found." :=
  ⟨(detect_game_score_policy ["heden.dir"]).1 (by decide),
   (detect_game_score_policy ["heden.dir", "avi.dir"]).2.2.1 (by decide) (by decide),
   (detect_game_score_policy ["unrelated.dir"]).2.2.2 (by decide) (by decide)⟩

/-- Claim C10: `detect_game` never returns the MulleBil variant; every
MulleBil expected file has extension `dxr`; and archive discovery keeps
only `.dir` files (case-insensitively), so a directory holding only
`.dxr` archives yields the no-matching-game error. -/
theorem detect_game_never_mulle_bil :
    (∀ names : List String, detectGame names ≠ Except.ok Game.mulleBil) ∧
    (∀ f ∈ mulleBilFiles, pathExtension f = some "dxr") ∧
    (∀ names : List String, (∀ n ∈ names, pathExtension n = some "dxr") →
      findDirFiles names = [] ∧
      detectGame (findDirFiles names) =
        Except.error "Unable to detect game type. No matching .dir files found.") := by
  refine ⟨fun names hc => ?_, by decide, fun names hall => ?_⟩
  · simp only [detectGame] at hc
    split_ifs at hc <;> exact absurd (Except.ok.inj hc) (by decide)
  · have hnil : findDirFiles names = [] := by
      simp only [findDirFiles]
      refine List.filter_eq_nil_iff.mpr (fun n hn => ?_)
      rw [hall n hn]
      decide
    exact ⟨hnil, by rw [hnil]; rfl⟩

/-- Witness for claim C10 at a concrete `.dxr`-only directory. -/
theorem detect_game_never_mulle_bil_witness :
    pathExtension "02.dxr" = some "dxr" ∧
    findDirFiles ["02.dxr"] = [] ∧
    detectGame (findDirFiles ["02.dxr"]) =
      Except.error "Unable to detect game type. No matching .dir files found." :=
  ⟨detect_game_never_mulle_bil.2.1 "02.dxr" (by decide),
   (detect_game_never_mulle_bil.2.2 ["02.dxr"] (by decide)).1,
   (detect_game_never_mulle_bil.2.2 ["02.dxr"] (by decide)).2⟩

/-- Claim C1 (counterexample): in a batch of 5 per-image outcomes where
only the second fails, the driver's `collect::<Result<Vec<_>>>()?`
yields the error and no list of the 4 successes: the single failure
aborts the whole batch instead of being partitioned out. -/
theorem processed_batch_single_failure_aborts :
    @collectResults String String
        [Except.ok "img1.bmp", Except.error "Failed to process image: img2.bmp",
          Except.ok "img3.bmp", Except.ok "img4.bmp", Except.ok "img5.bmp"] =
      Except.error "Failed to process image: img2.bmp" ∧
    (@collectResults String String
        [Except.ok "img1.bmp", Except.error "Failed to process image: img2.bmp",
          Except.ok "img3.bmp", Except.ok "img4.bmp", Except.ok "img5.bmp"]).isOk = false :=
  ⟨rfl, rfl⟩

/-- Claim C1 (amended): the driver does not partition outcomes; an
all-success batch collects into the full list of results, and any batch
containing a failure collects into that failure, discarding every
success. -/
theorem collect_results_first_error_aborts {ε α : Type}
    (l pre post : List (Except ε α)) (e : ε) :
    ((∀ x ∈ l, x.isOk = true) →
      ∃ outs, collectResults l = Except.ok outs ∧ outs.length = l.length) ∧
    ((∀ x ∈ pre, x.isOk = true) →
      collectResults (pre ++ Except.error e :: post) = Except.error e) := by
  constructor
  · intro hall
    induction l with
    | nil => exact ⟨[], rfl, rfl⟩
    | cons x rest ih =>
      obtain ⟨a, rfl⟩ : ∃ a, x = Except.ok a := by
        cases x with
        | ok a => exact ⟨a, rfl⟩
        | error d => exact absurd (hall _ (List.mem_cons_self _ _)) (by simp [Except.isOk, Except.toBool])
      obtain ⟨outs, houts, hlen⟩ := ih (fun y hy => hall y (List.mem_cons_of_mem _ hy))
      exact ⟨a :: outs, by simp [collectResults, houts, Except.map], by simp [hlen]⟩
  · intro hpre
    induction pre with
    | nil => rfl
    | cons x rest ih =>
      obtain ⟨a, rfl⟩ : ∃ a, x = Except.ok a := by
        cases x with
        | ok a => exact ⟨a, rfl⟩
        | error d => exact absurd (hpre _ (List.mem_cons_self _ _)) (by simp [Except.isOk, Except.toBool])
      have := ih (fun y hy => hpre y (List.mem_cons_of_mem _ hy))
      simp [collectResults, this, Except.map]

/-- Witness for the amended claim C1 at concrete batches. -/
theorem collect_results_first_error_aborts_witness :
    (∃ outs, @collectResults String String [Except.ok "a.bmp", Except.ok "b.bmp"] =
        Except.ok outs ∧
      outs.length = [Except.ok "a.bmp", (Except.ok "b.bmp" : Except String String)].length) ∧
    @collectResults String String [Except.ok "a.bmp", Except.error "boom"] =
      Except.error "boom" :=
  ⟨(collect_results_first_error_aborts [Except.ok "a.bmp", Except.ok "b.bmp"] [] [] "x").1
      (by decide),
   (collect_results_first_error_aborts [] [Except.ok "a.bmp"] [] "boom").2 (by decide)⟩

/-- Claim C4 (counterexample): an extractor subprocess that spawns
successfully but exits with status 1 does not make `extract_files`
fail; the exit status is never inspected, so only spawn/I-O errors are
fatal. -/
theorem extract_files_ignores_nonzero_exit :
    extractFiles ["game.dir"] (fun _ => Except.ok ⟨1⟩) = Except.ok () ∧
    (ProcOutput.mk 1).exitCode ≠ 0 :=
  ⟨rfl, by decide⟩

/-- Claim C4 (amended): a spawn/I-O failure of the extractor is fatal
for the whole run, surfaced with the archive filename attached; when
every spawn succeeds, extraction succeeds regardless of the
subprocesses' exit codes. -/
theorem extract_files_spawn_error_fatal (runner : String → Except String ProcOutput)
    (pre post files : List String) (f e : String) :
    ((∀ g ∈ pre, (runner g).isOk = true) → runner f = Except.error e →
      extractFiles (pre ++ f :: post) runner =
        Except.error ("Failed to extract assets from: " ++ f ++ ": " ++ e)) ∧
    (files ≠ [] → (∀ g ∈ files, (runner g).isOk = true) →
      extractFiles files runner = Except.ok ()) := by
  constructor
  · intro hpre hf
    have hne : (pre ++ f :: post).isEmpty = false := by
      cases pre <;> simp
    simp only [extractFiles, hne, Bool.false_eq_true, if_false]
    induction pre with
    | nil => simp [runExtractorAll, hf]
    | cons x rest ih =>
      obtain ⟨out, hout⟩ : ∃ out, runner x = Except.ok out := by
        cases hx : runner x with
        | ok out => exact ⟨out, rfl⟩
        | error d =>
          have := hpre _ (List.mem_cons_self _ _)
          rw [hx] at this
          simp [Except.isOk, Except.toBool] at this
      have := ih (fun y hy => hpre y (List.mem_cons_of_mem _ hy))
      simpa [runExtractorAll, hout] using this
  · intro hne hall
    have hempty : files.isEmpty = false := by
      cases files with
      | nil => exact absurd rfl hne
      | cons x rest => simp
    simp only [extractFiles, hempty, Bool.false_eq_true, if_false]
    clear hne hempty
    induction files with
    | nil => rfl
    | cons x rest ih =>
      obtain ⟨out, hout⟩ : ∃ out, runner x = Except.ok out := by
        cases hx : runner x with
        | ok out => exact ⟨out, rfl⟩
        | error d =>
          have := hall _ (List.mem_cons_self _ _)
          rw [hx] at this
          simp [Except.isOk, Except.toBool] at this
      have := ih (fun y hy => hall y (List.mem_cons_of_mem _ hy))
      simpa [runExtractorAll, hout] using this

/-- Witness for the amended claim C4: a concrete spawn failure on the
second archive is fatal with its filename attached, and all-ok spawns
succeed. -/
theorem extract_files_spawn_error_fatal_witness :
    extractFiles ["a.dir", "bad.dir"]
        (fun s => if s == "bad.dir" then Except.error "spawn failure" else Except.ok ⟨0⟩) =
      Except.error ("Failed to extract assets from: " ++ "bad.dir" ++ ": " ++ "spawn failure") ∧
    extractFiles ["a.dir"]
        (fun s => if s == "bad.dir" then Except.error "spawn failure" else Except.ok ⟨0⟩) =
      Except.ok () :=
  ⟨(extract_files_spawn_error_fatal
        (fun s => if s == "bad.dir" then Except.error "spawn failure" else Except.ok ⟨0⟩)
        ["a.dir"] [] ["a.dir"] "bad.dir" "spawn failure").1 (by decide) (by rfl),
   (extract_files_spawn_error_fatal
        (fun s => if s == "bad.dir" then Except.error "spawn failure" else Except.ok ⟨0⟩)
        ["a.dir"] [] ["a.dir"] "bad.dir" "spawn failure").2 (by decide) (by decide)⟩

/-- Claim C5 (counterexample): when extraction fails, `main` returns
through `?` before ever reaching `fs::remove_dir_all(&temp_dir)`: the
working directory is not removed on this fatal-error path. -/
theorem temp_dir_not_removed_on_extract_failure :
    runPipeline
        { copyInput := Except.ok (), prepare := Except.ok (), copyExtractorTool := Except.ok ()
          copyXtras := Except.ok (), extract := Except.error "Failed to extract files"
          dedup := Except.ok (), processImages := Except.ok (), postSetup := Except.ok ()
          createOutputDir := Except.ok (), moveProcessed := Except.ok (), moveWavs := Except.ok ()
          removeTemp := Except.ok () } =
      (Except.error "Failed to extract files", false) :=
  rfl

/-- Claim C5 (amended): the cleanup `fs::remove_dir_all(&temp_dir)` is
invoked exactly when every aborting stage succeeded (deduplication
failure, a warning, does not gate it); on every fatal-error path the
working directory is left behind. -/
theorem temp_dir_removed_iff_success (s : StageResults) :
    (runPipeline s).2 = true ↔
      (s.copyInput.isOk = true ∧ s.prepare.isOk = true ∧ s.copyExtractorTool.isOk = true ∧
        s.copyXtras.isOk = true ∧ s.extract.isOk = true ∧ s.processImages.isOk = true ∧
        s.postSetup.isOk = true ∧ s.createOutputDir.isOk = true ∧ s.moveProcessed.isOk = true ∧
        s.moveWavs.isOk = true) := by
  obtain ⟨c1, c2, c3, c4, c5, c6, c7, c8, c9, c10, c11, c12⟩ := s
  cases c1 with
  | error e => simp [runPipeline, Except.isOk, Except.toBool]
  | ok u1 =>
  cases c2 with
  | error e => simp [runPipeline, Except.isOk, Except.toBool]
  | ok u2 =>
  cases c3 with
  | error e => simp [runPipeline, Except.isOk, Except.toBool]
  | ok u3 =>
  cases c4 with
  | error e => simp [runPipeline, Except.isOk, Except.toBool]
  | ok u4 =>
  cases c5 with
  | error e => simp [runPipeline, Except.isOk, Except.toBool]
  | ok u5 =>
  cases c7 with
  | error e => simp [runPipeline, Except.isOk, Except.toBool]
  | ok u7 =>
  cases c8 with
  | error e => simp [runPipeline, Except.isOk, Except.toBool]
  | ok u8 =>
  cases c9 with
  | error e => simp [runPipeline, Except.isOk, Except.toBool]
  | ok u9 =>
  cases c10 with
  | error e => simp [runPipeline, Except.isOk, Except.toBool]
  | ok u10 =>
  cases c11 with
  | error e => simp [runPipeline, Except.isOk, Except.toBool]
  | ok u11 => simp [runPipeline, Except.isOk, Except.toBool]

/-- Witness for the amended claim C5: with every stage succeeding the
cleanup is invoked. -/
theorem temp_dir_removed_iff_success_witness :
    (runPipeline
        { copyInput := Except.ok (), prepare := Except.ok (), copyExtractorTool := Except.ok ()
          copyXtras := Except.ok (), extract := Except.ok (), dedup := Except.ok ()
          processImages := Except.ok (), postSetup := Except.ok (), createOutputDir := Except.ok ()
          moveProcessed := Except.ok (), moveWavs := Except.ok ()
          removeTemp := Except.ok () }).2 = true :=
  (temp_dir_removed_iff_success _).mpr
    ⟨rfl, rfl, rfl, rfl, rfl, rfl, rfl, rfl, rfl, rfl⟩

/-! ## Deduplication lemmas -/

theorem dedupGo_sublist : ∀ (l : List (String × String)) (seen : List String),
    List.Sublist (dedupGo l seen) l
  | [], _ => List.Sublist.refl _
  | f :: rest, seen => by
    by_cases h : f.2 ∈ seen
    · simp only [dedupGo, if_pos h]
      exact (dedupGo_sublist rest seen).cons f
    · simp only [dedupGo, if_neg h]
      exact (dedupGo_sublist rest (f.2 :: seen)).cons₂ f

theorem dedupGo_snd_not_mem : ∀ (l : List (String × String)) (seen : List String)
    (g : String × String), g ∈ dedupGo l seen → g.2 ∉ seen
  | [], _, g, hg => by simp [dedupGo] at hg
  | f :: rest, seen, g, hg => by
    by_cases h : f.2 ∈ seen
    · simp only [dedupGo, if_pos h] at hg
      exact dedupGo_snd_not_mem rest seen g hg
    · simp only [dedupGo, if_neg h] at hg
      rcases List.mem_cons.mp hg with rfl | hg2
      · exact h
      · intro hseen
        exact dedupGo_snd_not_mem rest (f.2 :: seen) g hg2 (List.mem_cons_of_mem _ hseen)

theorem dedupGo_pairwise : ∀ (l : List (String × String)) (seen : List String),
    (dedupGo l seen).Pairwise (fun a b => a.2 ≠ b.2)
  | [], _ => by simp [dedupGo]
  | f :: rest, seen => by
    by_cases h : f.2 ∈ seen
    · simp only [dedupGo, if_pos h]
      exact dedupGo_pairwise rest seen
    · simp only [dedupGo, if_neg h]
      refine List.Pairwise.cons (fun g hg heq => ?_) (dedupGo_pairwise rest (f.2 :: seen))
      refine dedupGo_snd_not_mem rest (f.2 :: seen) g hg ?_
      rw [← heq]
      exact List.mem_cons_self _ _

theorem dedupGo_keeps_first : ∀ (l : List (String × String)) (seen : List String) (hd : String),
    l.Pairwise pathOrder → hd ∉ seen → (∃ f ∈ l, f.2 = hd) →
    ∃ g ∈ dedupGo l seen, g.2 = hd ∧ ∀ f ∈ l, f.2 = hd → pathLe g.1 f.1 = true
  | [], _, _, _, _, hex => by simp at hex
  | f :: rest, seen, hd, hsorted, hseen, hex => by
    by_cases hf : f.2 = hd
    · have hfseen : f.2 ∉ seen := by rw [hf]; exact hseen
      simp only [dedupGo, if_neg hfseen]
      refine ⟨f, List.mem_cons_self _ _, hf, fun f2 hf2 _ => ?_⟩
      rcases List.mem_cons.mp hf2 with rfl | hf2r
      · exact lexLE_refl _
      · exact (List.pairwise_cons.mp hsorted).1 f2 hf2r
    · have hex2 : ∃ f2 ∈ rest, f2.2 = hd := by
        rcases hex with ⟨f2, hf2, h2⟩
        rcases List.mem_cons.mp hf2 with rfl | hm
        · exact absurd h2 hf
        · exact ⟨f2, hm, h2⟩
      by_cases hseen2 : f.2 ∈ seen
      · simp only [dedupGo, if_pos hseen2]
        obtain ⟨g, hg, hghd, hmin⟩ := dedupGo_keeps_first rest seen hd
          (List.pairwise_cons.mp hsorted).2 hseen hex2
        refine ⟨g, hg, hghd, fun f2 hf2 h2 => ?_⟩
        rcases List.mem_cons.mp hf2 with rfl | hm
        · exact absurd h2 hf
        · exact hmin f2 hm h2
      · simp only [dedupGo, if_neg hseen2]
        have hdne : hd ∉ f.2 :: seen := by
          intro hc
          rcases List.mem_cons.mp hc with hc1 | hc2
          · exact hf hc1.symm
          · exact hseen hc2
        obtain ⟨g, hg, hghd, hmin⟩ := dedupGo_keeps_first rest (f.2 :: seen) hd
          (List.pairwise_cons.mp hsorted).2 hdne hex2
        refine ⟨g, List.mem_cons_of_mem _ hg, hghd, fun f2 hf2 h2 => ?_⟩
        rcases List.mem_cons.mp hf2 with rfl | hm
        · exact absurd h2 hf
        · exact hmin f2 hm h2

theorem dedupGo_eq_self : ∀ (l : List (String × String)) (seen : List String),
    (∀ f ∈ l, f.2 ∉ seen) → l.Pairwise (fun a b => a.2 ≠ b.2) → dedupGo l seen = l
  | [], _, _, _ => rfl
  | f :: rest, seen, h1, h2 => by
    have hf : f.2 ∉ seen := h1 f (List.mem_cons_self _ _)
    simp only [dedupGo, if_neg hf]
    congr 1
    refine dedupGo_eq_self rest (f.2 :: seen) (fun f2 hf2 hc => ?_)
      (List.pairwise_cons.mp h2).2
    rcases List.mem_cons.mp hc with hc1 | hc2
    · exact ((List.pairwise_cons.mp h2).1 f2 hf2) hc1.symm
    · exact h1 f2 (List.mem_cons_of_mem _ hf2) hc2

/-- Claim C6: after `remove_duplicates` no two surviving records share
a digest; every survivor comes from the pool; every input record's
digest is represented by a survivor whose path compares less than or
equal to every pool member carrying that digest (the path-sorted
earliest one); and a second run deletes nothing. -/
theorem remove_duplicates_spec (files : List (String × String)) :
    (removeDuplicates files).Pairwise (fun a b => a.2 ≠ b.2) ∧
    (∀ g ∈ removeDuplicates files, g ∈ files) ∧
    (∀ f ∈ files, ∃ g ∈ removeDuplicates files, g.2 = f.2 ∧
      ∀ f2 ∈ files, f2.2 = f.2 → pathLe g.1 f2.1 = true) ∧
    removeDuplicates (removeDuplicates files) = removeDuplicates files := by
  have hsorted : (files.insertionSort pathOrder).Pairwise pathOrder :=
    List.sorted_insertionSort pathOrder files
  refine ⟨dedupGo_pairwise _ _, ?_, ?_, ?_⟩
  · intro g hg
    exact (List.mem_insertionSort pathOrder).mp ((dedupGo_sublist _ _).subset hg)
  · intro f hf
    obtain ⟨g, hg, hghd, hmin⟩ := dedupGo_keeps_first (files.insertionSort pathOrder) [] f.2
      hsorted (by simp) ⟨f, (List.mem_insertionSort pathOrder).mpr hf, rfl⟩
    exact ⟨g, hg, hghd, fun f2 hf2 h2 => hmin f2 ((List.mem_insertionSort pathOrder).mpr hf2) h2⟩
  · have hpw : List.Sorted pathOrder (removeDuplicates files) :=
      List.Pairwise.sublist (dedupGo_sublist _ _) hsorted
    show dedupGo ((removeDuplicates files).insertionSort pathOrder) [] = removeDuplicates files
    rw [List.Sorted.insertionSort_eq hpw]
    exact dedupGo_eq_self _ _ (by simp) (dedupGo_pairwise _ _)

/-- Witness for claim C6 at a concrete pool: the duplicate group of
digest `h1` keeps its path-sorted-earliest member. -/
theorem remove_duplicates_spec_witness :
    ∃ g ∈ removeDuplicates [("b", "h1"), ("a", "h1"), ("c", "h2")], g.2 = "h1" ∧
      ∀ f2 ∈ [("b", "h1"), ("a", "h1"), ("c", "h2")], f2.2 = "h1" →
        pathLe g.1 f2.1 = true :=
  (remove_duplicates_spec [("b", "h1"), ("a", "h1"), ("c", "h2")]).2.2.1
    ("b", "h1") (by decide)

theorem combine_background_pix_in (img2 bg : Image) (x y : Nat)
    (hx : x < img2.width) (hy : y < img2.height) :
    (combine_background img2 bg).pix x y =
      ⟨(img2.pix x y).r, (img2.pix x y).g, (img2.pix x y).b, 255 - (bg.pix x y).r⟩ := by
  simp only [combine_background]
  rw [if_pos ⟨hx, hy⟩]

/-- Claim C8: `process_image` follows the 4-way decision table —
(no upscale, no compress) lossless BMP with unmodified pixels,
(no upscale, compress) WebP with no resize, (upscale, no compress)
PNG, (upscale, compress) WebP — and on the upscale path the output
dimensions are exactly 3 times the input dimensions, given that the
external resize honours its requested dimensions. -/
theorem process_image_format_table (resizeF : Image → Nat → Nat → Image)
    (forward : Image → Nat → Nat → Nat → Rgb) (img : Image) (key : Rgb)
    (hdim : ∀ im nw nh, (resizeF im nw nh).width = nw ∧ (resizeF im nw nh).height = nh) :
    process_image resizeF forward img false false key = (ImgFormat.bmp, img) ∧
    process_image resizeF forward img true false key = (ImgFormat.webp, img) ∧
    (process_image resizeF forward img false true key).1 = ImgFormat.png ∧
    (process_image resizeF forward img true true key).1 = ImgFormat.webp ∧
    (∀ compress : Bool,
      (process_image resizeF forward img compress true key).2.width = img.width * 3 ∧
      (process_image resizeF forward img compress true key).2.height = img.height * 3) := by
  refine ⟨rfl, rfl, rfl, rfl, fun compress => ?_⟩
  cases compress <;>
    exact ⟨(hdim (background_and_foreground img key) (img.width * 3) (img.height * 3)).1,
      (hdim (background_and_foreground img key) (img.width * 3) (img.height * 3)).2⟩

/-- Witness for claim C8 at a concrete image, resize and network. -/
theorem process_image_format_table_witness :
    process_image (fun _ nw nh => ⟨nw, nh, fun _ _ => ⟨0, 0, 0, 255⟩⟩)
        (fun _ _ _ _ => ⟨0, 0, 0⟩) (uniformImage 2 3 ⟨7, 7, 7⟩) false false ⟨255, 255, 255⟩ =
      (ImgFormat.bmp, uniformImage 2 3 ⟨7, 7, 7⟩) ∧
    (process_image (fun _ nw nh => ⟨nw, nh, fun _ _ => ⟨0, 0, 0, 255⟩⟩)
        (fun _ _ _ _ => ⟨0, 0, 0⟩) (uniformImage 2 3 ⟨7, 7, 7⟩) true true
        ⟨255, 255, 255⟩).2.width = 6 ∧
    (process_image (fun _ nw nh => ⟨nw, nh, fun _ _ => ⟨0, 0, 0, 255⟩⟩)
        (fun _ _ _ _ => ⟨0, 0, 0⟩) (uniformImage 2 3 ⟨7, 7, 7⟩) true true
        ⟨255, 255, 255⟩).2.height = 9 :=
  ⟨(process_image_format_table (fun _ nw nh => ⟨nw, nh, fun _ _ => ⟨0, 0, 0, 255⟩⟩)
      (fun _ _ _ _ => ⟨0, 0, 0⟩) (uniformImage 2 3 ⟨7, 7, 7⟩) ⟨255, 255, 255⟩
      (fun _ _ _ => ⟨rfl, rfl⟩)).1,
   ((process_image_format_table (fun _ nw nh => ⟨nw, nh, fun _ _ => ⟨0, 0, 0, 255⟩⟩)
      (fun _ _ _ _ => ⟨0, 0, 0⟩) (uniformImage 2 3 ⟨7, 7, 7⟩) ⟨255, 255, 255⟩
      (fun _ _ _ => ⟨rfl, rfl⟩)).2.2.2.2 true).1,
   ((process_image_format_table (fun _ nw nh => ⟨nw, nh, fun _ _ => ⟨0, 0, 0, 255⟩⟩)
      (fun _ _ _ _ => ⟨0, 0, 0⟩) (uniformImage 2 3 ⟨7, 7, 7⟩) ⟨255, 255, 255⟩
      (fun _ _ _ => ⟨rfl, rfl⟩)).2.2.2.2 true).2⟩

/-- Claim C3 (counterexample): with the black transparent color key
(0,0,0) — MulleBil's key, whose red channel is 0 — a 1×1 uniform
key-colored image, upscaled, composites to alpha `255 − 0 = 255`:
fully opaque, not fully transparent as the claim states for any key.
The external resize is instantiated with color replication, which is
what the triangle filter computes on a uniform source; the network
output cannot influence the alpha. -/
theorem uniform_black_key_fully_opaque :
    ((process_image (fun im nw nh => ⟨nw, nh, fun _ _ => im.pix 0 0⟩)
        (fun _ _ _ _ => ⟨0, 0, 0⟩) (uniformImage 1 1 ⟨0, 0, 0⟩) false true
        ⟨0, 0, 0⟩).2.pix 0 0).a = 255 ∧
    ((process_image (fun im nw nh => ⟨nw, nh, fun _ _ => im.pix 0 0⟩)
        (fun _ _ _ _ => ⟨0, 0, 0⟩) (uniformImage 1 1 ⟨0, 0, 0⟩) false true
        ⟨0, 0, 0⟩).2.pix 0 0).a ≠ 0 :=
  ⟨rfl, by decide⟩

/-- Claim C3 (amended): for any transparent color key and a uniform
key-colored source of any size, every in-bounds pixel of the upscaled
output has alpha `255 − key.red` — fully transparent exactly when the
key's red channel is 255 (which holds for both selectable variants'
keys, white and magenta, but not for an arbitrary key). The external
resize is assumed to honour its requested dimensions and to map an
everywhere-uniform image to that color, as the triangle filter does. -/
theorem uniform_key_alpha_complement (resizeF : Image → Nat → Nat → Image)
    (forward : Image → Nat → Nat → Nat → Rgb) (key : Rgb) (w h x y : Nat) (compress : Bool)
    (huni : ∀ im nw nh c, (∀ px py, im.pix px py = c) →
      ∀ px py, px < nw → py < nh → (resizeF im nw nh).pix px py = c)
    (hx : x < w * 3) (hy : y < h * 3) :
    ((process_image resizeF forward (uniformImage w h key) compress true key).2.pix x y).a =
      255 - key.r ∧
    (key.r = 255 →
      ((process_image resizeF forward (uniformImage w h key) compress true key).2.pix x y).a
        = 0) := by
  have hmask : ∀ px py,
      (background_and_foreground (uniformImage w h key) key).pix px py =
        ⟨key.r, key.g, key.b, 255⟩ := by
    intro px py
    simp [background_and_foreground, uniformImage]
  have hbg := huni (background_and_foreground (uniformImage w h key) key) (w * 3) (h * 3)
    ⟨key.r, key.g, key.b, 255⟩ hmask x y hx hy
  have hcore : (process_image resizeF forward (uniformImage w h key) compress true key).2 =
      combine_background
        (ai_upscale forward (background_to_transparent (uniformImage w h key) key) 3)
        (resizeF (background_and_foreground (uniformImage w h key) key) (w * 3) (h * 3)) := by
    cases compress <;> rfl
  have hval :
      ((process_image resizeF forward (uniformImage w h key) compress true key).2.pix x y).a =
        255 - key.r := by
    rw [hcore, combine_background_pix_in _ _ x y hx hy, hbg]
  exact ⟨hval, fun h255 => by rw [hval, h255]⟩

/-- Witness for the amended claim C3: the white key (red 255) yields a
fully transparent pixel on a 1×1 uniform source. -/
theorem uniform_key_alpha_complement_witness :
    ((process_image (fun im nw nh => ⟨nw, nh, fun _ _ => im.pix 0 0⟩)
        (fun _ _ _ _ => ⟨0, 0, 0⟩) (uniformImage 1 1 ⟨255, 255, 255⟩) false true
        ⟨255, 255, 255⟩).2.pix 0 0).a = 0 :=
  (uniform_key_alpha_complement (fun im nw nh => ⟨nw, nh, fun _ _ => im.pix 0 0⟩)
      (fun _ _ _ _ => ⟨0, 0, 0⟩) ⟨255, 255, 255⟩ 1 1 0 0 false
      (fun _ _ _ _ hc _ _ _ _ => hc 0 0)
      (by decide) (by decide)).2 rfl

/-- Claim C9 (counterexample): when `fs::rename` fails and the
`fs::copy` fallback runs, the file exists at the destination but the
source file still exists too — the fallback is copy-only, not the
copy-plus-delete the claim describes. -/
theorem move_file_fallback_keeps_source :
    ["tmp", "plain.bmp"] ∈
      (moveFileToOutput false ["tmp", "plain.bmp"] ["out"] none
        ⟨[["tmp", "plain.bmp"]], []⟩).files ∧
    ["out", "plain.bmp"] ∈
      (moveFileToOutput false ["tmp", "plain.bmp"] ["out"] none
        ⟨[["tmp", "plain.bmp"]], []⟩).files := by
  decide

/-- Claim C9 (amended): `move_file_to_output` creates every missing
ancestor of the destination's parent before moving and the file exists
at the demangled destination afterwards; when the rename succeeds the
source is gone, but when the rename fails the fallback copies without
deleting, so the source file remains. -/
theorem move_file_to_output_spec (renameOk : Bool) (src : List String)
    (outputDir : List String) (extOverride : Option String) (fs : FS) :
    (outputDir ++ demangledComponents src.getLast! extOverride) ∈
      (moveFileToOutput renameOk src outputDir extOverride fs).files ∧
    (∀ i, i < (outputDir ++ demangledComponents src.getLast! extOverride).dropLast.length →
      (outputDir ++ demangledComponents src.getLast! extOverride).dropLast.take (i + 1) ∈
        (moveFileToOutput renameOk src outputDir extOverride fs).dirs) ∧
    (renameOk = true → src ≠ outputDir ++ demangledComponents src.getLast! extOverride →
      src ∉ (moveFileToOutput renameOk src outputDir extOverride fs).files) ∧
    (renameOk = false → src ∈ fs.files →
      src ∈ (moveFileToOutput renameOk src outputDir extOverride fs).files) := by
  refine ⟨?_, ?_, ?_, ?_⟩
  · cases renameOk <;> simp [moveFileToOutput, mkdirAll]
  · intro i hi
    cases renameOk <;>
      · simp only [moveFileToOutput, mkdirAll]
        exact List.mem_append_left _ (List.mem_map.mpr ⟨i, List.mem_range.mpr hi, rfl⟩)
  · intro hrok hne
    subst hrok
    simp only [moveFileToOutput, mkdirAll, if_true]
    intro hc
    rcases List.mem_cons.mp hc with hc1 | hc2
    · exact hne hc1
    · exact absurd rfl (of_decide_eq_true (List.mem_filter.mp hc2).2)
  · intro hrok hmem
    subst hrok
    simp only [moveFileToOutput, mkdirAll, if_false]
    exact List.mem_cons_of_mem _ hmem

/-- Witness for the amended claim C9: a successful rename creates the
parent, places the file at the destination and removes the source. -/
theorem move_file_to_output_spec_witness :
    ["out", "plain.bmp"] ∈
      (moveFileToOutput true ["tmp", "plain.bmp"] ["out"] none
        ⟨[["tmp", "plain.bmp"]], []⟩).files ∧
    ["out"] ∈
      (moveFileToOutput true ["tmp", "plain.bmp"] ["out"] none
        ⟨[["tmp", "plain.bmp"]], []⟩).dirs ∧
    ["tmp", "plain.bmp"] ∉
      (moveFileToOutput true ["tmp", "plain.bmp"] ["out"] none
        ⟨[["tmp", "plain.bmp"]], []⟩).files :=
  ⟨(move_file_to_output_spec true ["tmp", "plain.bmp"] ["out"] none
      ⟨[["tmp", "plain.bmp"]], []⟩).1,
   (move_file_to_output_spec true ["tmp", "plain.bmp"] ["out"] none
      ⟨[["tmp", "plain.bmp"]], []⟩).2.1 0 (by decide),
   (move_file_to_output_spec true ["tmp", "plain.bmp"] ["out"] none
      ⟨[["tmp", "plain.bmp"]], []⟩).2.2.1 rfl (by decide)⟩

end Cgex
